import Mathlib

/-!
Verification of the core algorithms of PyRate (`pyrate/algorithm.py`):
epoch derivation, reference-pixel search, and per-pixel minimum-spanning-tree
selection.  The Python source is shallowly embedded: Python 2 integers become
`Int` with `Int.fdiv` for floor division `//`, floating-point phase values
become `Option ℚ` (with `none` standing for NaN), and the pygraph graph object
becomes its edge set (a `Finset`), the node set being fixed after setup.
-/

namespace PyRate

/-- Python 2 `xrange(start, stop, step)` materialised as a list.
`none` models the `ValueError` raised when `step` is zero. -/
def xrange (start stop step : Int) : Option (List Int) :=
  if step = 0 then none
  else
    let n : Nat :=
      if 0 < step then (((stop - start) + step - 1).fdiv step).toNat
      else (((start - stop) + (-step) - 1).fdiv (-step)).toNat
    some ((List.range n).map fun k : Nat => start + (k : Int) * step)

/-- Embedding of `_step(dim, ref, radius)`: candidate search-window centres
along one axis.  `dim` is the grid dimension, `ref` the requested number of
steps, `radius = chipsize // 2`.  Mirrors the source:
`ref == 1` returns `xrange(dim // 2, dim, dim)` (a fake step giving a single
value); `ref == 2` returns `[radius, dim - radius - 1]`; otherwise
`xrange(radius, dim, max_dim // (ref - 1))` with `max_dim = dim - 2 * radius`. -/
def stepCenters (dim ref radius : Int) : Option (List Int) :=
  if ref = 1 then
    xrange (dim.fdiv 2) dim dim
  else if ref = 2 then
    some [radius, dim - radius - 1]
  else
    xrange radius dim ((dim - 2 * radius).fdiv (ref - 1))

/-- The slice of an interferogram stack used by `ref_pixel`: the grid of one
interferogram, exposing the dimensions and the phase values (`none` = NaN). -/
structure IfgR where
  WIDTH : Int
  FILE_LENGTH : Int
  phase_data : Int → Int → Option ℚ

/-- The configuration mapping as consumed by `ref_pixel`.  `refx`/`refy` come
through `params.get(..., 0)`, so a missing entry already reads as `0`; the
four search parameters are read without a default and may be absent. -/
structure RefParams where
  refx : Int := 0
  refy : Int := 0
  refChipSize : Option Int := none
  refMinFrac : Option ℚ := none
  refnx : Option Int := none
  refny : Option Int := none

/-- Modelled from the spec: the `config` module is not part of the core
source; the spec names this configuration key `ref_chip_size`. -/
def REF_CHIP_SIZE : String := "ref_chip_size"

/-- Modelled from the spec: configuration key for the minimum valid-cell
fraction. -/
def REF_MIN_FRAC : String := "ref_min_frac"

/-- Modelled from the spec: configuration key for the horizontal step count. -/
def REFNX : String := "refnx"

/-- Modelled from the spec: configuration key for the vertical step count. -/
def REFNY : String := "refny"

/-- The distinct error conditions of the reference-pixel search:
`valueError` for out-of-range parameters, `configError` for parameters absent
from the configuration (`config.ConfigException`), `refPixelError` for search
exhaustion (`RefPixelError`), `indexError` for `ifgs[0]` on an empty stack. -/
inductive AlgError where
  | valueError (msg : String)
  | configError (msg : String)
  | refPixelError (msg : String)
  | indexError
deriving DecidableEq

/-- The message raised by `missing_option_error`. -/
def missingOptionMsg (option : String) : String :=
  "Missing " ++ option ++ " in configuration options"

/-- Embedding of `check_ref_pixel_params(params, head)`.  The Python function
returns nothing and raises on failure; here the validated quadruple
(chipsize, min fraction, refnx, refny) is returned so `ref_pixel` can read it
back, exactly as the Python caller re-reads the now known-present keys. -/
def check_ref_pixel_params (params : RefParams) (head : IfgR) :
    Except AlgError (Int × ℚ × Int × Int) :=
  match params.refChipSize with
  | none => .error (.configError (missingOptionMsg REF_CHIP_SIZE))
  | some chipsize =>
    if chipsize < 3 ∨ chipsize > head.WIDTH ∨ chipsize % 2 = 0 then
      .error (.valueError "Chipsize setting must be >=3 and at least <= grid width")
    else
      match params.refMinFrac with
      | none => .error (.configError (missingOptionMsg REF_MIN_FRAC))
      | some minFrac =>
        if minFrac < 0 ∨ minFrac > 1 then
          .error (.valueError "Minimum fraction setting must be >= 0.0 and <= 1.0 ")
        else
          match params.refnx with
          | none => .error (.configError (missingOptionMsg REFNX))
          | some refnx =>
            if refnx < 1 ∨ refnx > head.WIDTH - (chipsize - 1) then
              .error (.valueError ("Invalid refnx setting, must be > 0 and < " ++
                toString (head.WIDTH - (chipsize - 1))))
            else
              match params.refny with
              | none => .error (.configError (missingOptionMsg REFNY))
              | some refny =>
                if refny < 1 ∨ refny > head.FILE_LENGTH - (chipsize - 1) then
                  .error (.valueError ("Invalid refny setting, must be > 0 and < " ++
                    toString (head.FILE_LENGTH - (chipsize - 1))))
                else .ok (chipsize, minFrac, refnx, refny)

/-- Indices selected by a Python step-1 slice `[a:b]` of a sequence of length
`n` (negative bounds wrap, out-of-range bounds clamp). -/
def pySliceIndices (a b n : Int) : List Int :=
  let lo := if a < 0 then max (n + a) 0 else min a n
  let hi := if b < 0 then max (n + b) 0 else min b n
  if lo < hi then (List.range (hi - lo).toNat).map (fun k => lo + (k : Int)) else []

/-- The window `phase[y-radius : y+radius+1, x-radius : x+radius+1]` flattened
in row-major (C) order, as sliced from a `rows × cols` grid. -/
def windowValues (phase : Int → Int → Option ℚ) (rows cols y x radius : Int) :
    List (Option ℚ) :=
  (pySliceIndices (y - radius) (y + radius + 1) rows).flatMap fun yy =>
    (pySliceIndices (x - radius) (x + radius + 1) cols).map fun xx => phase yy xx

/-- Validity of a candidate centre `c = (y, x)`: in every interferogram the
window's count of non-NaN cells strictly exceeds `thresh`
(`all(nsum(~isnan(i)) > thresh for i in data)`). -/
def candValid (ifgs : List IfgR) (rows cols radius : Int) (thresh : ℚ)
    (c : Int × Int) : Bool :=
  ifgs.all fun i =>
    decide (thresh <
      (((windowValues i.phase_data rows cols c.1 c.2 radius).filter Option.isSome).length : ℚ))

/-- Mean over interferograms of the window standard deviations:
`mean([std(i[~isnan(i)]) for i in data])`.  `numpy.std` is floating point and
is modelled as the abstract parameter `sdFn` applied to the window's non-NaN
cells in row-major order. -/
def candScore (sdFn : List ℚ → ℚ) (ifgs : List IfgR) (rows cols radius : Int)
    (c : Int × Int) : ℚ :=
  let sds := ifgs.map fun i =>
    sdFn ((windowValues i.phase_data rows cols c.1 c.2 radius).filterMap id)
  sds.sum / (sds.length : ℚ)

/-- `mean_sd < min_sd` where `min_sd` starts as `float("inf")` (`none`). -/
def ltInf (m : ℚ) : Option ℚ → Bool
  | none => true
  | some v => decide (m < v)

/-- One iteration of the search loop body: keep the candidate iff it is valid
in every interferogram and its mean standard deviation strictly improves on
the best seen so far (ties keep the earlier candidate). -/
def scanStep (valid : Int × Int → Bool) (score : Int × Int → ℚ)
    (st : Option ℚ × Int × Int) (c : Int × Int) : Option ℚ × Int × Int :=
  if valid c then
    if ltInf (score c) st.1 then (some (score c), c.1, c.2) else st
  else st

/-- Embedding of `ref_pixel(params, ifgs)`.  The `ys = []` branch is split out
because Python only evaluates the inner `_step` call (and hence can only raise
its `ValueError`) once the outer loop iterates at least once. -/
def ref_pixel (sdFn : List ℚ → ℚ) (params : RefParams) (ifgs : List IfgR) :
    Except AlgError (Int × Int) :=
  match ifgs.head? with
  | none => .error .indexError
  | some head =>
    if params.refx ≠ 0 ∨ params.refy ≠ 0 then
      if params.refx < 1 ∨ params.refx > head.WIDTH - 1 then
        .error (.valueError ("Invalid reference pixel X coordinate: " ++ toString params.refx))
      else if params.refy < 1 ∨ params.refy > head.FILE_LENGTH - 1 then
        .error (.valueError ("Invalid reference pixel Y coordinate: " ++ toString params.refy))
      else .ok (params.refy, params.refx)
    else
      match check_ref_pixel_params params head with
      | .error e => .error e
      | .ok (chipsize, minFrac, refnx, refny) =>
        let radius := chipsize.fdiv 2
        let thresh := minFrac * (chipsize : ℚ) * (chipsize : ℚ)
        match stepCenters head.FILE_LENGTH refny radius with
        | none => .error (.valueError "xrange arg 3 must not be zero")
        | some ys =>
          match ys with
          | [] =>
            if (params.refy, params.refx) = ((0 : Int), (0 : Int)) then
              .error (.refPixelError "Could not find a reference pixel")
            else .ok (params.refy, params.refx)
          | y0 :: ytl =>
            match stepCenters head.WIDTH refnx radius with
            | none => .error (.valueError "xrange arg 3 must not be zero")
            | some xs =>
              let cands := (y0 :: ytl).flatMap fun y => xs.map fun x => (y, x)
              let final := cands.foldl
                (scanStep (candValid ifgs head.FILE_LENGTH head.WIDTH radius thresh)
                  (candScore sdFn ifgs head.FILE_LENGTH head.WIDTH radius))
                (none, params.refy, params.refx)
              if (final.2.1, final.2.2) = ((0 : Int), (0 : Int)) then
                .error (.refPixelError "Could not find a reference pixel")
              else .ok (final.2.1, final.2.2)

/-- The master/slave acquisition dates of one interferogram, as consumed by
`get_epochs`.  A date is its day number; Python date subtraction
`(d1 - d2).days` becomes integer subtraction. -/
structure IfgE where
  MASTER : Int
  SLAVE : Int

/-- Container mirroring `shared.EpochList(dates, repeat, span)` (the `shared`
module is outside the core source; the field layout follows the spec):
sorted distinct dates, their repeat counts, and fractional-year spans. -/
structure EpochList where
  dates : List Int
  repeats : List Nat
  span : List ℚ

/-- Embedding of `get_epochs(ifgs)`.  `numpy.unique(combined, False, True)`
returns the distinct values in ascending order together with inverse indices;
`histogram(n, bins=len(set(n)))` over the inverse-index array `n` (whose
values are exactly `0..len(dates)-1`) counts the occurrences of each index —
its float bin edges land every integer `j` in bin `j`, so it is embedded by
its exact counting semantics.  The span `(d - dates[0]).days / 365.25` is the
exact rational `(d - dates[0]) * 4 / 1461`. -/
def get_epochs (ifgs : List IfgE) : EpochList :=
  let masters := ifgs.map IfgE.MASTER
  let slaves := ifgs.map IfgE.SLAVE
  let combined := masters ++ slaves
  let dates := (combined.dedup).mergeSort (fun a b => decide (a ≤ b))
  let n := combined.map fun d => dates.indexOf d
  let repeats := (List.range dates.length).map fun i => n.count i
  let span := dates.map fun d => ((d - dates.headD 0 : Int) : ℚ) * 4 / 1461
  ⟨dates, repeats, span⟩

/-- One interferogram as consumed by `mst_matrix`: its `DATE12` edge
identifier, its `nan_fraction` edge weight, and its phase grid indexed by
pixel (`none` = NaN). -/
structure IfgM (E : Type) where
  DATE12 : E
  nan_fraction : ℚ
  phase : Nat × Nat → Option ℚ

/-- A per-pixel result cell: either an MST (a parent mapping, the pygraph
result dictionary) or the NaN sentinel stored when every value is missing. -/
inductive PixelMst (D : Type) where
  | tree (t : List (D × Option D))
  | nanValue
deriving DecidableEq

/-- Embedding of `_remove_root_node(mst)`: delete every key whose parent
entry is `None` (pygraph's root sentinel) from the MST dictionary. -/
def remove_root_node {D : Type} (m : List (D × Option D)) : List (D × Option D) :=
  m.filter fun kv => kv.2.isSome

/-- One iteration of the edge-adjustment loop of `mst_matrix`: if the pixel
value is present and the edge absent, insert it; if the value is missing and
the edge present, remove it.  The pygraph graph is embedded as its edge set;
the node set is fixed after setup and each edge always carries the same
weight (its interferogram's `nan_fraction`), so weights need no tracking. -/
def toggleEdge {E : Type} [DecidableEq E] (g : Finset E) (value : Option ℚ)
    (edge : E) : Finset E :=
  match value with
  | some _ => if edge ∉ g then insert edge g else g
  | none => if edge ∈ g then g.erase edge else g

/-- The full edge-adjustment loop over `zip(values, edges)`. -/
def adjustGraph {E : Type} [DecidableEq E] (g : Finset E)
    (pairs : List (Option ℚ × E)) : Finset E :=
  pairs.foldl (fun h ve => toggleEdge h ve.1 ve.2) g

/-- The body of the per-pixel loop of `mst_matrix`.  `mstFn` abstracts
`pygraph.algorithms.minmax.minimal_spanning_tree` (an external library) on
the graph with the fixed node set and the given edge set.  Returns the new
graph state, the value assigned to the pixel, and the number of MST
computations performed (instrumentation for the optimisation branches). -/
def pixelStep {E D : Type} [DecidableEq E]
    (mstFn : Finset E → List (D × Option D)) (defaultMst : List (D × Option D))
    (ifgs : List (IfgM E)) (g : Finset E) (p : Nat × Nat) :
    Finset E × PixelMst D × Nat :=
  let values := ifgs.map fun i => i.phase p
  let nc := (values.filter fun v => v.isNone).length
  if nc = 0 then (g, .tree defaultMst, 0)
  else if nc = ifgs.length then (g, .nanValue, 0)
  else
    let g2 := adjustGraph g (values.zip (ifgs.map IfgM.DATE12))
    (g2, .tree (remove_root_node (mstFn g2)), 1)

/-- Embedding of `mst_matrix(ifgs, epochs)`: build the full graph (one edge
per interferogram), cache the default MST, then walk the grid row-major
(`product(xrange(rows), xrange(cols))`), threading the shared mutable graph.
Returns the list of (pixel, assigned value) in traversal order — modelling
the object-array assignments — together with the final graph state and the
total number of per-pixel MST computations. -/
def mst_matrix {E D : Type} [DecidableEq E]
    (mstFn : Finset E → List (D × Option D)) (ifgs : List (IfgM E))
    (rows cols : Nat) : List ((Nat × Nat) × PixelMst D) × Finset E × Nat :=
  let edges := ifgs.map IfgM.DATE12
  let g0 : Finset E := edges.toFinset
  let defaultMst := remove_root_node (mstFn g0)
  let pixels := (List.range rows).flatMap fun y => (List.range cols).map fun x => (y, x)
  pixels.foldl
    (fun acc p =>
      let r := pixelStep mstFn defaultMst ifgs acc.2.1 p
      (acc.1 ++ [(p, r.2.1)], r.1, acc.2.2 + r.2.2))
    ([], g0, 0)

/-- Sample abstract MST function for concrete instantiations. -/
def sampleMstFn : Finset Nat → List (Nat × Option Nat) := fun _ => [(0, none)]

/-- Sample two-interferogram stack: both values present at column 0, both
missing at every other column. -/
def sampleIfgs : List (IfgM Nat) :=
  [⟨0, 0, fun q => if q.2 = 0 then some 1 else none⟩,
   ⟨1, 0, fun q => if q.2 = 0 then some 1 else none⟩]

/-- Sample stack where interferogram 0 is always present and interferogram 1
always missing. -/
def sampleIfgsMixed : List (IfgM Nat) :=
  [⟨0, 0, fun _ => some 1⟩, ⟨1, 0, fun _ => none⟩]

lemma stepCenters_one (dim radius : Int) (hdim : 1 ≤ dim) :
    stepCenters dim 1 radius = some [dim.fdiv 2] := by
  have hpos : (0 : Int) < dim := by omega
  have hfd : dim.fdiv 2 = dim / 2 := Int.fdiv_eq_ediv _ (by omega)
  have hn : (((dim - dim.fdiv 2) + dim - 1).fdiv dim).toNat = 1 := by
    have he : ((dim - dim.fdiv 2) + dim - 1).fdiv dim =
        ((dim - dim.fdiv 2) + dim - 1) / dim := Int.fdiv_eq_ediv _ (by omega)
    rw [he, hfd]
    have h1 : (1 : Int) ≤ (dim - dim / 2 + dim - 1) / dim :=
      (Int.le_ediv_iff_mul_le hpos).mpr (by omega)
    have h2 : (dim - dim / 2 + dim - 1) / dim < 2 :=
      (Int.ediv_lt_iff_lt_mul hpos).mpr (by omega)
    omega
  have hr1 : List.range 1 = [0] := rfl
  simp only [stepCenters, xrange, if_pos rfl, if_neg (by omega : ¬ dim = 0),
    if_pos hpos, hn, hr1, List.map_cons, List.map_nil]
  norm_num

lemma stepCenters_two (dim radius : Int) :
    stepCenters dim 2 radius = some [radius, dim - radius - 1] := by
  simp [stepCenters]

lemma stepCenters_ge3 (dim ref radius : Int) (h3 : 3 ≤ ref) (hrad : 1 ≤ radius)
    (hbound : ref ≤ dim - 2 * radius) :
    ∃ s : Int, ∃ n : Nat,
      s = (dim - 2 * radius).fdiv (ref - 1) ∧ 1 ≤ s ∧
      stepCenters dim ref radius = some ((List.range n).map fun k : Nat => radius + (k : Int) * s) ∧
      ref ≤ (n : Int) ∧
      ∀ k : Nat, k < n → 1 ≤ radius + (k : Int) * s ∧ radius + (k : Int) * s < dim := by
  have hr1 : (0 : Int) < ref - 1 := by omega
  have hmax : (0 : Int) < dim - 2 * radius := by omega
  set s : Int := (dim - 2 * radius).fdiv (ref - 1) with hs
  have hse : s = (dim - 2 * radius) / (ref - 1) := Int.fdiv_eq_ediv _ (by omega)
  have hs1 : 1 ≤ s := by
    rw [hse]
    exact (Int.le_ediv_iff_mul_le hr1).mpr (by omega)
  have hspos : (0 : Int) < s := by omega
  have hkey : (dim - 2 * radius) / (ref - 1) * (ref - 1) ≤ dim - 2 * radius :=
    Int.ediv_mul_le _ (by omega)
  set N : Int := ((dim - radius) + s - 1).fdiv s with hN
  have hNe : N = ((dim - radius) + s - 1) / s := Int.fdiv_eq_ediv _ (by omega)
  have hrefN : ref ≤ N := by
    rw [hNe]
    refine (Int.le_ediv_iff_mul_le hspos).mpr ?_
    have hmul : s * (ref - 1) ≤ dim - 2 * radius := by
      calc s * (ref - 1) = (dim - 2 * radius) / (ref - 1) * (ref - 1) := by rw [hse]
        _ ≤ dim - 2 * radius := hkey
    nlinarith
  have hN0 : 0 ≤ N := by omega
  refine ⟨s, N.toNat, rfl, hs1, ?_, by omega, ?_⟩
  · have hne1 : ¬ ref = 1 := by omega
    have hne2 : ¬ ref = 2 := by omega
    simp only [stepCenters, if_neg hne1, if_neg hne2, xrange, ← hs,
      if_neg (by omega : ¬ s = 0), if_pos hspos, ← hN]
  · intro k hk
    have hk0 : (0 : Int) ≤ (k : Int) := by positivity
    have hks : (0 : Int) ≤ (k : Int) * s := by positivity
    have hlt : (k : Int) + 1 ≤ N := by omega
    have hbnd : ((k : Int) + 1) * s ≤ (dim - radius) + s - 1 := by
      refine (Int.le_ediv_iff_mul_le hspos).mp ?_
      rw [← hNe]; exact hlt
    constructor
    · omega
    · nlinarith

/-- C2 (amended): for step count 1 (and a positive dimension) the centres are
the single position `dim // 2`; for step count 2 exactly `radius` and
`dim - radius - 1`; otherwise the centres are `radius + k * stride` with
`stride = (dim - 2 * radius) // (refCount - 1)`, continuing while below `dim`:
at least `refCount` positions (under the validated bounds), possibly more. -/
theorem step_centers_spec (dim ref radius : Int) :
    (1 ≤ dim → stepCenters dim 1 radius = some [dim.fdiv 2]) ∧
    (stepCenters dim 2 radius = some [radius, dim - radius - 1]) ∧
    (3 ≤ ref → 1 ≤ radius → ref ≤ dim - 2 * radius →
      ∃ s : Int, ∃ n : Nat,
        s = (dim - 2 * radius).fdiv (ref - 1) ∧ 1 ≤ s ∧
        stepCenters dim ref radius = some ((List.range n).map fun k : Nat => radius + (k : Int) * s) ∧
        ref ≤ (n : Int) ∧
        ∀ k : Nat, k < n → 1 ≤ radius + (k : Int) * s ∧ radius + (k : Int) * s < dim) :=
  ⟨fun h => stepCenters_one dim radius h, stepCenters_two dim radius,
    fun h3 hrad hbound => stepCenters_ge3 dim ref radius h3 hrad hbound⟩

/-- C2 witness: instantiating the amended claim at dim 10, refCount 4,
radius 1 (plus the two special branches at concrete inputs). -/
theorem step_centers_spec_witness :
    stepCenters 9 1 4 = some [4] ∧
    stepCenters 10 2 1 = some [1, 8] ∧
    (∃ s : Int, ∃ n : Nat,
      s = (10 - 2 * 1 : Int).fdiv (4 - 1) ∧ 1 ≤ s ∧
      stepCenters 10 4 1 = some ((List.range n).map fun k : Nat => 1 + (k : Int) * s) ∧
      (4 : Int) ≤ (n : Int) ∧
      ∀ k : Nat, k < n → 1 ≤ 1 + (k : Int) * s ∧ 1 + (k : Int) * s < 10) :=
  ⟨(step_centers_spec 9 1 4).1 (by norm_num),
    (step_centers_spec 10 2 1).2.1,
    (step_centers_spec 10 4 1).2.2 (by norm_num) (by norm_num) (by norm_num)⟩

/-- C2 counterexample: with dimension 10, requested step count 4 and radius 1
the general branch produces five positions, not exactly four. -/
theorem step_centers_not_exact :
    stepCenters 10 4 1 = some [1, 3, 5, 7, 9] ∧
    ([1, 3, 5, 7, 9] : List Int).length ≠ 4 := by
  decide

/-- C4: a pinned reference pixel (both coordinates non-zero and within
`[1, width-1] × [1, height-1]`) is returned as `(refy, refx)` immediately,
for every value of the search parameters (present, absent or invalid), every
phase grid and every standard-deviation function — so no parameter validation
and no window scan takes place. -/
theorem ref_pixel_pinned (sdFn : List ℚ → ℚ) (params : RefParams) (head : IfgR)
    (rest : List IfgR) (hx0 : params.refx ≠ 0) (hy0 : params.refy ≠ 0)
    (hx1 : 1 ≤ params.refx) (hx2 : params.refx ≤ head.WIDTH - 1)
    (hy1 : 1 ≤ params.refy) (hy2 : params.refy ≤ head.FILE_LENGTH - 1) :
    ref_pixel sdFn params (head :: rest) = .ok (params.refy, params.refx) := by
  simp only [ref_pixel, List.head?]
  rw [if_pos (Or.inl hx0), if_neg (by omega), if_neg (by omega)]

/-- C4 witness. -/
theorem ref_pixel_pinned_witness :
    ref_pixel (fun l => l.sum) { refx := 2, refy := 3 } [⟨4, 5, fun _ _ => none⟩] =
      .ok (3, 2) :=
  ref_pixel_pinned (fun l => l.sum) { refx := 2, refy := 3 } ⟨4, 5, fun _ _ => none⟩ []
    (by decide) (by decide) (by decide) (by decide) (by decide) (by decide)

/-- C10: if exactly one of the configured coordinates is non-zero the pinned
branch is still entered and fails its bound check with a `ValueError` instead
of falling back to the window search: a zero `refx` always fails the X check
(checked first); a zero `refy` with an in-bounds non-zero `refx` fails the Y
check. -/
theorem ref_pixel_one_zero (sdFn : List ℚ → ℚ) (params : RefParams) (head : IfgR)
    (rest : List IfgR) :
    (params.refx = 0 → params.refy ≠ 0 →
      ref_pixel sdFn params (head :: rest) =
        .error (.valueError ("Invalid reference pixel X coordinate: " ++
          toString params.refx))) ∧
    (params.refy = 0 → params.refx ≠ 0 → 1 ≤ params.refx →
      params.refx ≤ head.WIDTH - 1 →
      ref_pixel sdFn params (head :: rest) =
        .error (.valueError ("Invalid reference pixel Y coordinate: " ++
          toString params.refy))) := by
  constructor
  · intro hx hy
    simp only [ref_pixel, List.head?]
    rw [if_pos (Or.inr hy), if_pos (by omega)]
  · intro hy hx hx1 hx2
    simp only [ref_pixel, List.head?]
    rw [if_pos (Or.inl hx), if_neg (by omega), if_pos (by omega)]

/-- C10 witness: `refx = 0, refy = 5` raises the X-coordinate `ValueError`,
and `refy = 0, refx = 2` (with width 4) raises the Y-coordinate one. -/
theorem ref_pixel_one_zero_witness :
    ref_pixel (fun l => l.sum) { refx := 0, refy := 5 } [⟨4, 9, fun _ _ => none⟩] =
      .error (.valueError ("Invalid reference pixel X coordinate: " ++ toString (0 : Int))) ∧
    ref_pixel (fun l => l.sum) { refx := 2, refy := 0 } [⟨4, 9, fun _ _ => none⟩] =
      .error (.valueError ("Invalid reference pixel Y coordinate: " ++ toString (0 : Int))) :=
  ⟨(ref_pixel_one_zero (fun l => l.sum) { refx := 0, refy := 5 }
      ⟨4, 9, fun _ _ => none⟩ []).1 (by decide) (by decide),
   (ref_pixel_one_zero (fun l => l.sum) { refx := 2, refy := 0 }
      ⟨4, 9, fun _ _ => none⟩ []).2 (by decide) (by decide) (by decide) (by decide)⟩

lemma check_missing_chip (params : RefParams) (head : IfgR)
    (hcs : params.refChipSize = none) :
    check_ref_pixel_params params head =
      .error (.configError (missingOptionMsg REF_CHIP_SIZE)) := by
  simp only [check_ref_pixel_params, hcs]

lemma check_missing_minfrac (params : RefParams) (head : IfgR) (cs : Int)
    (hcs : params.refChipSize = some cs)
    (h1 : ¬ (cs < 3 ∨ cs > head.WIDTH ∨ cs % 2 = 0))
    (hmf : params.refMinFrac = none) :
    check_ref_pixel_params params head =
      .error (.configError (missingOptionMsg REF_MIN_FRAC)) := by
  simp only [check_ref_pixel_params, hcs, hmf]
  rw [if_neg h1]

lemma check_missing_refnx (params : RefParams) (head : IfgR) (cs : Int) (mf : ℚ)
    (hcs : params.refChipSize = some cs)
    (h1 : ¬ (cs < 3 ∨ cs > head.WIDTH ∨ cs % 2 = 0))
    (hmf : params.refMinFrac = some mf) (h2 : ¬ (mf < 0 ∨ mf > 1))
    (hnx : params.refnx = none) :
    check_ref_pixel_params params head =
      .error (.configError (missingOptionMsg REFNX)) := by
  simp only [check_ref_pixel_params, hcs, hmf, hnx]
  rw [if_neg h1, if_neg h2]

lemma check_missing_refny (params : RefParams) (head : IfgR) (cs : Int) (mf : ℚ)
    (nx : Int) (hcs : params.refChipSize = some cs)
    (h1 : ¬ (cs < 3 ∨ cs > head.WIDTH ∨ cs % 2 = 0))
    (hmf : params.refMinFrac = some mf) (h2 : ¬ (mf < 0 ∨ mf > 1))
    (hnx : params.refnx = some nx)
    (h3 : ¬ (nx < 1 ∨ nx > head.WIDTH - (cs - 1)))
    (hny : params.refny = none) :
    check_ref_pixel_params params head =
      .error (.configError (missingOptionMsg REFNY)) := by
  simp only [check_ref_pixel_params, hcs, hmf, hnx, hny]
  rw [if_neg h1, if_neg h2, if_neg h3]

lemma check_ok (params : RefParams) (head : IfgR) (cs : Int) (mf : ℚ)
    (nx ny : Int) (hcs : params.refChipSize = some cs)
    (h1 : ¬ (cs < 3 ∨ cs > head.WIDTH ∨ cs % 2 = 0))
    (hmf : params.refMinFrac = some mf) (h2 : ¬ (mf < 0 ∨ mf > 1))
    (hnx : params.refnx = some nx)
    (h3 : ¬ (nx < 1 ∨ nx > head.WIDTH - (cs - 1)))
    (hny : params.refny = some ny)
    (h4 : ¬ (ny < 1 ∨ ny > head.FILE_LENGTH - (cs - 1))) :
    check_ref_pixel_params params head = .ok (cs, mf, nx, ny) := by
  simp only [check_ref_pixel_params, hcs, hmf, hnx, hny]
  rw [if_neg h1, if_neg h2, if_neg h3, if_neg h4]

lemma ref_pixel_check_error (sdFn : List ℚ → ℚ) (params : RefParams)
    (head : IfgR) (rest : List IfgR) (e : AlgError)
    (hx : params.refx = 0) (hy : params.refy = 0)
    (hchk : check_ref_pixel_params params head = .error e) :
    ref_pixel sdFn params (head :: rest) = .error e := by
  simp only [ref_pixel, List.head?]
  rw [if_neg (by simp [hx, hy]), hchk]

/-- C6: with no pinned pixel, a search parameter absent from the
configuration makes `ref_pixel` fail with a `ConfigException` whose message
names the missing key, before any window scan (the result does not depend on
the phase data or on `sdFn`); each parameter is reported once the preceding
checks pass, and the configuration error is distinct from the `ValueError`
used for out-of-range values. -/
theorem ref_pixel_missing_param (sdFn : List ℚ → ℚ) (params : RefParams)
    (head : IfgR) (rest : List IfgR)
    (hx : params.refx = 0) (hy : params.refy = 0) :
    (params.refChipSize = none →
      ref_pixel sdFn params (head :: rest) =
        .error (.configError (missingOptionMsg REF_CHIP_SIZE))) ∧
    (∀ cs : Int, params.refChipSize = some cs →
      ¬ (cs < 3 ∨ cs > head.WIDTH ∨ cs % 2 = 0) → params.refMinFrac = none →
      ref_pixel sdFn params (head :: rest) =
        .error (.configError (missingOptionMsg REF_MIN_FRAC))) ∧
    (∀ (cs : Int) (mf : ℚ), params.refChipSize = some cs →
      ¬ (cs < 3 ∨ cs > head.WIDTH ∨ cs % 2 = 0) → params.refMinFrac = some mf →
      ¬ (mf < 0 ∨ mf > 1) → params.refnx = none →
      ref_pixel sdFn params (head :: rest) =
        .error (.configError (missingOptionMsg REFNX))) ∧
    (∀ (cs : Int) (mf : ℚ) (nx : Int), params.refChipSize = some cs →
      ¬ (cs < 3 ∨ cs > head.WIDTH ∨ cs % 2 = 0) → params.refMinFrac = some mf →
      ¬ (mf < 0 ∨ mf > 1) → params.refnx = some nx →
      ¬ (nx < 1 ∨ nx > head.WIDTH - (cs - 1)) → params.refny = none →
      ref_pixel sdFn params (head :: rest) =
        .error (.configError (missingOptionMsg REFNY))) ∧
    (∀ a b : String, AlgError.configError a ≠ AlgError.valueError b) := by
  refine ⟨?_, ?_, ?_, ?_, fun a b h => by cases h⟩
  · intro hcs
    exact ref_pixel_check_error sdFn params head rest _ hx hy
      (check_missing_chip params head hcs)
  · intro cs hcs hcsok hmf
    exact ref_pixel_check_error sdFn params head rest _ hx hy
      (check_missing_minfrac params head cs hcs hcsok hmf)
  · intro cs mf hcs hcsok hmf hmfok hnx
    exact ref_pixel_check_error sdFn params head rest _ hx hy
      (check_missing_refnx params head cs mf hcs hcsok hmf hmfok hnx)
  · intro cs mf nx hcs hcsok hmf hmfok hnx hnxok hny
    exact ref_pixel_check_error sdFn params head rest _ hx hy
      (check_missing_refny params head cs mf nx hcs hcsok hmf hmfok hnx hnxok hny)

lemma scanFold_id (valid : Int × Int → Bool) (score : Int × Int → ℚ)
    (l : List (Int × Int)) (st : Option ℚ × Int × Int)
    (h : ∀ c ∈ l, valid c = false) :
    l.foldl (scanStep valid score) st = st := by
  induction l generalizing st with
  | nil => rfl
  | cons a t ih =>
    have ha : valid a = false := h a (List.mem_cons_self a t)
    simp only [List.foldl_cons, scanStep, ha, Bool.false_eq_true, if_false]
    exact ih st fun c hc => h c (List.mem_cons_of_mem a hc)

lemma scanFold_some (valid : Int × Int → Bool) (score : Int × Int → ℚ)
    (l : List (Int × Int)) (st : Option ℚ × Int × Int) (h : st.1.isSome) :
    (l.foldl (scanStep valid score) st).1.isSome := by
  induction l generalizing st with
  | nil => exact h
  | cons a t ih =>
    simp only [List.foldl_cons]
    refine ih _ ?_
    simp only [scanStep]
    by_cases hv : valid a = true
    · by_cases hlt : ltInf (score a) st.1 = true
      · simp [hv, hlt]
      · simp [hv, hlt, h]
    · simp [hv, h]

lemma scanFold_exists_valid (valid : Int × Int → Bool) (score : Int × Int → ℚ)
    (l : List (Int × Int)) (st : Option ℚ × Int × Int) (hst : st.1 = none)
    (h : ∃ c ∈ l, valid c = true) :
    (l.foldl (scanStep valid score) st).1.isSome := by
  induction l generalizing st with
  | nil => simp at h
  | cons a t ih =>
    simp only [List.foldl_cons]
    by_cases hv : valid a = true
    · refine scanFold_some valid score t _ ?_
      simp [scanStep, hv, hst, ltInf]
    · rcases h with ⟨c, hc, hcv⟩
      rcases List.mem_cons.mp hc with rfl | hct
      · exact absurd hcv hv
      · simp only [scanStep, hv, Bool.false_eq_true, if_false]
        exact ih st hst ⟨c, hct, hcv⟩

lemma scanFold_result (valid : Int × Int → Bool) (score : Int × Int → ℚ)
    (l : List (Int × Int)) (st : Option ℚ × Int × Int) :
    l.foldl (scanStep valid score) st = st ∨
    ∃ c ∈ l, valid c = true ∧
      l.foldl (scanStep valid score) st = (some (score c), c.1, c.2) := by
  induction l generalizing st with
  | nil => exact Or.inl rfl
  | cons a t ih =>
    simp only [List.foldl_cons]
    by_cases hv : valid a = true
    · by_cases hlt : ltInf (score a) st.1 = true
      · have hstep : scanStep valid score st a = (some (score a), a.1, a.2) := by
          simp [scanStep, hv, hlt]
        rw [hstep]
        rcases ih (some (score a), a.1, a.2) with heq | ⟨c, hc, hcv, heq⟩
        · exact Or.inr ⟨a, List.mem_cons_self a t, hv, heq⟩
        · exact Or.inr ⟨c, List.mem_cons_of_mem a hc, hcv, heq⟩
      · have hstep : scanStep valid score st a = st := by
          simp [scanStep, hv, hlt]
        rw [hstep]
        rcases ih st with heq | ⟨c, hc, hcv, heq⟩
        · exact Or.inl heq
        · exact Or.inr ⟨c, List.mem_cons_of_mem a hc, hcv, heq⟩
    · have hstep : scanStep valid score st a = st := by simp [scanStep, hv]
      rw [hstep]
      rcases ih st with heq | ⟨c, hc, hcv, heq⟩
      · exact Or.inl heq
      · exact Or.inr ⟨c, List.mem_cons_of_mem a hc, hcv, heq⟩

lemma stepCenters_pos (dim ref radius : Int) (l : List Int)
    (hrad : 1 ≤ radius) (href : 1 ≤ ref) (hbound : ref ≤ dim - 2 * radius)
    (hl : stepCenters dim ref radius = some l) :
    l ≠ [] ∧ ∀ v ∈ l, 1 ≤ v := by
  have hdim : 3 ≤ dim := by omega
  by_cases h1 : ref = 1
  · subst h1
    rw [stepCenters_one dim radius (by omega)] at hl
    obtain rfl : l = [dim.fdiv 2] := by injection hl with h; exact h.symm
    have : dim.fdiv 2 = dim / 2 := Int.fdiv_eq_ediv _ (by omega)
    refine ⟨by simp, ?_⟩
    intro v hv
    rcases List.mem_singleton.mp hv with rfl
    omega
  · by_cases h2 : ref = 2
    · subst h2
      rw [stepCenters_two dim radius] at hl
      obtain rfl : l = [radius, dim - radius - 1] := by injection hl with h; exact h.symm
      refine ⟨by simp, ?_⟩
      intro v hv
      rcases List.mem_cons.mp hv with rfl | hv
      · omega
      · rcases List.mem_singleton.mp hv with rfl
        omega
    · have h3 : 3 ≤ ref := by omega
      obtain ⟨s, n, _, hs1, hsome, hn, hall⟩ := stepCenters_ge3 dim ref radius h3 hrad hbound
      rw [hsome] at hl
      obtain rfl : l = (List.range n).map fun k : Nat => radius + (k : Int) * s := by
        injection hl with h; exact h.symm
      constructor
      · have hn0 : 0 < n := by omega
        refine List.ne_nil_of_length_pos ?_
        simpa using hn0
      · intro v hv
        rcases List.mem_map.mp hv with ⟨k, hk, rfl⟩
        exact (hall k (List.mem_range.mp hk)).1

/-- C6 witness: a configuration missing the chip-size key (resp. missing
`refnx` with the earlier parameters valid) fails with the configuration
error naming that key. -/
theorem ref_pixel_missing_param_witness :
    ref_pixel (fun l => l.sum) { refx := 0, refy := 0 } [⟨4, 9, fun _ _ => none⟩] =
      .error (.configError (missingOptionMsg REF_CHIP_SIZE)) ∧
    ref_pixel (fun l => l.sum)
        { refx := 0, refy := 0, refChipSize := some 3, refMinFrac := some (1/2) }
        [⟨4, 9, fun _ _ => none⟩] =
      .error (.configError (missingOptionMsg REFNX)) :=
  ⟨(ref_pixel_missing_param (fun l => l.sum) { refx := 0, refy := 0 }
      ⟨4, 9, fun _ _ => none⟩ [] (by decide) (by decide)).1 rfl,
   (ref_pixel_missing_param (fun l => l.sum)
      { refx := 0, refy := 0, refChipSize := some 3, refMinFrac := some (1/2) }
      ⟨4, 9, fun _ _ => none⟩ [] (by decide) (by decide)).2.2.1 3 (1/2) rfl
      (by decide) rfl (by norm_num) rfl⟩

lemma ref_pixel_scan (sdFn : List ℚ → ℚ) (params : RefParams) (head : IfgR)
    (rest : List IfgR) (cs : Int) (mf : ℚ) (nx ny : Int)
    (y0 : Int) (ytl xs : List Int)
    (hx : params.refx = 0) (hy : params.refy = 0)
    (hcs : params.refChipSize = some cs)
    (h1 : ¬ (cs < 3 ∨ cs > head.WIDTH ∨ cs % 2 = 0))
    (hmf : params.refMinFrac = some mf) (h2 : ¬ (mf < 0 ∨ mf > 1))
    (hnx : params.refnx = some nx)
    (h3 : ¬ (nx < 1 ∨ nx > head.WIDTH - (cs - 1)))
    (hny : params.refny = some ny)
    (h4 : ¬ (ny < 1 ∨ ny > head.FILE_LENGTH - (cs - 1)))
    (hys : stepCenters head.FILE_LENGTH ny (cs.fdiv 2) = some (y0 :: ytl))
    (hxs : stepCenters head.WIDTH nx (cs.fdiv 2) = some xs) :
    ref_pixel sdFn params (head :: rest) =
      (if ((((y0 :: ytl).flatMap fun y => xs.map fun x => (y, x)).foldl
          (scanStep
            (candValid (head :: rest) head.FILE_LENGTH head.WIDTH (cs.fdiv 2)
              (mf * (cs : ℚ) * (cs : ℚ)))
            (candScore sdFn (head :: rest) head.FILE_LENGTH head.WIDTH (cs.fdiv 2)))
          (none, params.refy, params.refx)).2.1,
        (((y0 :: ytl).flatMap fun y => xs.map fun x => (y, x)).foldl
          (scanStep
            (candValid (head :: rest) head.FILE_LENGTH head.WIDTH (cs.fdiv 2)
              (mf * (cs : ℚ) * (cs : ℚ)))
            (candScore sdFn (head :: rest) head.FILE_LENGTH head.WIDTH (cs.fdiv 2)))
          (none, params.refy, params.refx)).2.2) = ((0 : Int), (0 : Int)) then
          Except.error (AlgError.refPixelError "Could not find a reference pixel")
        else Except.ok ((((y0 :: ytl).flatMap fun y => xs.map fun x => (y, x)).foldl
          (scanStep
            (candValid (head :: rest) head.FILE_LENGTH head.WIDTH (cs.fdiv 2)
              (mf * (cs : ℚ) * (cs : ℚ)))
            (candScore sdFn (head :: rest) head.FILE_LENGTH head.WIDTH (cs.fdiv 2)))
          (none, params.refy, params.refx)).2.1,
        (((y0 :: ytl).flatMap fun y => xs.map fun x => (y, x)).foldl
          (scanStep
            (candValid (head :: rest) head.FILE_LENGTH head.WIDTH (cs.fdiv 2)
              (mf * (cs : ℚ) * (cs : ℚ)))
            (candScore sdFn (head :: rest) head.FILE_LENGTH head.WIDTH (cs.fdiv 2)))
          (none, params.refy, params.refx)).2.2)) := by
  have hchk := check_ok params head cs mf nx ny hcs h1 hmf h2 hnx h3 hny h4
  simp only [ref_pixel, List.head?]
  rw [if_neg (by simp [hx, hy])]
  simp only [hchk, hys, hxs]

/-- C5: with no pinned pixel and validated parameters, the search raises the
distinct exhaustion error `RefPixelError` exactly when no candidate window is
valid in every interferogram, and returns a coordinate whenever some
candidate is valid. -/
theorem ref_pixel_search_exhaustion (sdFn : List ℚ → ℚ) (params : RefParams)
    (head : IfgR) (rest : List IfgR) (cs : Int) (mf : ℚ) (nx ny : Int)
    (ys xs : List Int)
    (hx : params.refx = 0) (hy : params.refy = 0)
    (hcs : params.refChipSize = some cs)
    (h1 : ¬ (cs < 3 ∨ cs > head.WIDTH ∨ cs % 2 = 0))
    (hmf : params.refMinFrac = some mf) (h2 : ¬ (mf < 0 ∨ mf > 1))
    (hnx : params.refnx = some nx)
    (h3 : ¬ (nx < 1 ∨ nx > head.WIDTH - (cs - 1)))
    (hny : params.refny = some ny)
    (h4 : ¬ (ny < 1 ∨ ny > head.FILE_LENGTH - (cs - 1)))
    (hys : stepCenters head.FILE_LENGTH ny (cs.fdiv 2) = some ys)
    (hxs : stepCenters head.WIDTH nx (cs.fdiv 2) = some xs) :
    (ref_pixel sdFn params (head :: rest) =
        .error (.refPixelError "Could not find a reference pixel") ↔
      ∀ y ∈ ys, ∀ x ∈ xs,
        candValid (head :: rest) head.FILE_LENGTH head.WIDTH (cs.fdiv 2)
          (mf * (cs : ℚ) * (cs : ℚ)) (y, x) = false) ∧
    ((∃ y ∈ ys, ∃ x ∈ xs,
        candValid (head :: rest) head.FILE_LENGTH head.WIDTH (cs.fdiv 2)
          (mf * (cs : ℚ) * (cs : ℚ)) (y, x) = true) →
      ∃ yx : Int × Int, ref_pixel sdFn params (head :: rest) = .ok yx) := by
  have hfd : cs.fdiv 2 = cs / 2 := Int.fdiv_eq_ediv _ (by norm_num)
  have hrad1 : 1 ≤ cs.fdiv 2 := by omega
  have hcseq : cs = 2 * cs.fdiv 2 + 1 := by omega
  have hysPos := stepCenters_pos head.FILE_LENGTH ny (cs.fdiv 2) ys hrad1
    (by omega) (by omega) hys
  have hxsPos := stepCenters_pos head.WIDTH nx (cs.fdiv 2) xs hrad1
    (by omega) (by omega) hxs
  obtain ⟨y0, ytl, rfl⟩ : ∃ a t, ys = a :: t := by
    cases ys with
    | nil => exact absurd rfl hysPos.1
    | cons a t => exact ⟨a, t, rfl⟩
  have hscan := ref_pixel_scan sdFn params head rest cs mf nx ny y0 ytl xs
    hx hy hcs h1 hmf h2 hnx h3 hny h4 hys hxs
  rw [hscan]
  simp only [hx, hy]
  set V := candValid (head :: rest) head.FILE_LENGTH head.WIDTH (cs.fdiv 2)
    (mf * (cs : ℚ) * (cs : ℚ)) with hV
  set S := candScore sdFn (head :: rest) head.FILE_LENGTH head.WIDTH (cs.fdiv 2) with hS
  set cands := (y0 :: ytl).flatMap fun y => xs.map fun x => (y, x) with hcands
  have hmemyx : ∀ y x : Int, (y, x) ∈ cands ↔ y ∈ y0 :: ytl ∧ x ∈ xs := by
    intro y x
    simp only [hcands, List.mem_flatMap, List.mem_map]
    constructor
    · rintro ⟨a, ha, b, hb, hab⟩
      obtain ⟨rfl, rfl⟩ : a = y ∧ b = x := by
        constructor <;> [exact congrArg Prod.fst hab; exact congrArg Prod.snd hab]
      exact ⟨ha, hb⟩
    · rintro ⟨hy1, hx1⟩
      exact ⟨y, hy1, x, hx1, rfl⟩
  have hok_of_valid :
      (∃ y ∈ y0 :: ytl, ∃ x ∈ xs, V (y, x) = true) →
      ∃ yx : Int × Int,
        (if ((cands.foldl (scanStep V S) (none, (0 : Int), (0 : Int))).2.1,
            (cands.foldl (scanStep V S) (none, (0 : Int), (0 : Int))).2.2) =
              ((0 : Int), (0 : Int)) then
           Except.error (AlgError.refPixelError "Could not find a reference pixel")
         else Except.ok ((cands.foldl (scanStep V S) (none, (0 : Int), (0 : Int))).2.1,
           (cands.foldl (scanStep V S) (none, (0 : Int), (0 : Int))).2.2)) =
          Except.ok yx := by
    rintro ⟨y, hy1, x, hx1, hvalid⟩
    have hmem : (y, x) ∈ cands := (hmemyx y x).mpr ⟨hy1, hx1⟩
    have hsome := scanFold_exists_valid V S cands (none, (0 : Int), (0 : Int)) rfl
      ⟨(y, x), hmem, hvalid⟩
    rcases scanFold_result V S cands (none, (0 : Int), (0 : Int)) with heq | ⟨c, hcmem, _, heq⟩
    · rw [heq] at hsome
      simp at hsome
    · have hc := (hmemyx c.1 c.2).mp (by simpa using hcmem)
      have hc1 : 1 ≤ c.1 := hysPos.2 c.1 hc.1
      refine ⟨(c.1, c.2), ?_⟩
      rw [heq]
      rw [if_neg (fun hcon => by
        have := congrArg Prod.fst hcon
        simp at this
        omega)]
  refine ⟨⟨?_, ?_⟩, ?_⟩
  · intro herr
    by_contra hno
    push_neg at hno
    obtain ⟨y, hy1, x, hx1, hne⟩ := hno
    have hvalid : V (y, x) = true := by
      cases hV2 : V (y, x) with
      | false => exact absurd hV2 hne
      | true => rfl
    obtain ⟨yx, hok⟩ := hok_of_valid ⟨y, hy1, x, hx1, hvalid⟩
    rw [hok] at herr
    exact absurd herr (by simp)
  · intro hinvalid
    have hfold : cands.foldl (scanStep V S) (none, (0 : Int), (0 : Int)) =
        (none, (0 : Int), (0 : Int)) := by
      refine scanFold_id V S cands _ ?_
      intro c hc
      have := (hmemyx c.1 c.2).mp (by simpa using hc)
      have := hinvalid c.1 this.1 c.2 this.2
      simpa using this
    rw [hfold]
    rfl
  · exact hok_of_valid

lemma scanFold_min (valid : Int × Int → Bool) (score : Int × Int → ℚ) :
    ∀ (t : List (Int × Int)) (m : ℚ) (b : Int × Int),
    (t.foldl (scanStep valid score) (some m, b.1, b.2) = (some m, b.1, b.2) ∧
      ∀ d ∈ t, valid d = true → m ≤ score d) ∨
    (∃ t₁ d t₂, t = t₁ ++ d :: t₂ ∧ valid d = true ∧ score d < m ∧
      (∀ e ∈ t₁, valid e = true → score d < score e) ∧
      (∀ e ∈ t₂, valid e = true → score d ≤ score e) ∧
      t.foldl (scanStep valid score) (some m, b.1, b.2) = (some (score d), d.1, d.2)) := by
  intro t
  induction t with
  | nil => exact fun m b => Or.inl ⟨rfl, by simp⟩
  | cons e t ih =>
    intro m b
    by_cases hv : valid e = true
    · by_cases hlt : score e < m
      · have hstep : scanStep valid score (some m, b.1, b.2) e =
            (some (score e), e.1, e.2) := by
          simp [scanStep, hv, ltInf, hlt]
        rw [List.foldl_cons, hstep]
        rcases ih (score e) e with ⟨heq, hmin⟩ | ⟨t₁, d, t₂, ht, hvd, hltd, hpre, hpost, heq⟩
        · refine Or.inr ⟨[], e, t, by simp, hv, hlt, by simp, ?_, heq⟩
          intro d hd hvd
          exact hmin d hd hvd
        · refine Or.inr ⟨e :: t₁, d, t₂, by rw [ht]; rfl, hvd, lt_trans hltd hlt, ?_,
            hpost, heq⟩
          intro f hf hvf
          rcases List.mem_cons.mp hf with rfl | hf
          · exact hltd
          · exact hpre f hf hvf
      · have hstep : scanStep valid score (some m, b.1, b.2) e = (some m, b.1, b.2) := by
          simp only [scanStep, hv, if_true, ltInf]
          rw [if_neg (by simpa using hlt)]
        rw [List.foldl_cons, hstep]
        rcases ih m b with ⟨heq, hmin⟩ | ⟨t₁, d, t₂, ht, hvd, hltd, hpre, hpost, heq⟩
        · refine Or.inl ⟨heq, ?_⟩
          intro d hd hvd
          rcases List.mem_cons.mp hd with rfl | hd
          · exact le_of_not_lt hlt
          · exact hmin d hd hvd
        · refine Or.inr ⟨e :: t₁, d, t₂, by rw [ht]; rfl, hvd, hltd, ?_, hpost, heq⟩
          intro f hf hvf
          rcases List.mem_cons.mp hf with rfl | hf
          · exact lt_of_lt_of_le hltd (le_of_not_lt hlt)
          · exact hpre f hf hvf
    · have hstep : scanStep valid score (some m, b.1, b.2) e = (some m, b.1, b.2) := by
        simp [scanStep, hv]
      rw [List.foldl_cons, hstep]
      rcases ih m b with ⟨heq, hmin⟩ | ⟨t₁, d, t₂, ht, hvd, hltd, hpre, hpost, heq⟩
      · refine Or.inl ⟨heq, ?_⟩
        intro d hd hvd
        rcases List.mem_cons.mp hd with rfl | hd
        · exact absurd hvd hv
        · exact hmin d hd hvd
      · refine Or.inr ⟨e :: t₁, d, t₂, by rw [ht]; rfl, hvd, hltd, ?_, hpost, heq⟩
        intro f hf hvf
        rcases List.mem_cons.mp hf with rfl | hf
        · exact absurd hvf hv
        · exact hpre f hf hvf

lemma exists_first_valid (valid : Int × Int → Bool) :
    ∀ (l : List (Int × Int)), (∃ c ∈ l, valid c = true) →
    ∃ p c t, l = p ++ c :: t ∧ (∀ e ∈ p, valid e = false) ∧ valid c = true := by
  intro l
  induction l with
  | nil => rintro ⟨c, hc, -⟩; simp at hc
  | cons a t ih =>
    intro h
    by_cases hv : valid a = true
    · exact ⟨[], a, t, by simp, by simp, hv⟩
    · obtain ⟨c, hc, hcv⟩ := h
      rcases List.mem_cons.mp hc with rfl | hct
      · exact absurd hcv hv
      · obtain ⟨p, c', t', hlt, hinv, hv'⟩ := ih ⟨c, hct, hcv⟩
        refine ⟨a :: p, c', t', by rw [hlt]; rfl, ?_, hv'⟩
        intro e he
        rcases List.mem_cons.mp he with rfl | hep
        · exact Bool.eq_false_iff.mpr hv
        · exact hinv e hep

lemma scanFold_first_argmin (valid : Int × Int → Bool) (score : Int × Int → ℚ)
    (l : List (Int × Int)) (b0y b0x : Int) (h : ∃ c ∈ l, valid c = true) :
    ∃ l₁ c l₂, l = l₁ ++ c :: l₂ ∧ valid c = true ∧
      (∀ e ∈ l₁, valid e = true → score c < score e) ∧
      (∀ e ∈ l₂, valid e = true → score c ≤ score e) ∧
      l.foldl (scanStep valid score) (none, b0y, b0x) = (some (score c), c.1, c.2) := by
  obtain ⟨p, c0, t, rfl, hinv, hv0⟩ := exists_first_valid valid l h
  have hpre : p.foldl (scanStep valid score) (none, b0y, b0x) = (none, b0y, b0x) :=
    scanFold_id valid score p _ hinv
  have hstep : scanStep valid score (none, b0y, b0x) c0 = (some (score c0), c0.1, c0.2) := by
    simp [scanStep, hv0, ltInf]
  have hfold : (p ++ c0 :: t).foldl (scanStep valid score) (none, b0y, b0x) =
      t.foldl (scanStep valid score) (some (score c0), c0.1, c0.2) := by
    rw [List.foldl_append, hpre, List.foldl_cons, hstep]
  rcases scanFold_min valid score t (score c0) c0 with ⟨heq, hmin⟩ |
    ⟨t₁, d, t₂, ht, hvd, hltd, hp1, hp2, heq⟩
  · refine ⟨p, c0, t, rfl, hv0, ?_, hmin, by rw [hfold, heq]⟩
    intro e he hve
    exact absurd hve (by simp [hinv e he])
  · refine ⟨p ++ c0 :: t₁, d, t₂, by rw [ht]; simp, hvd, ?_, hp2, by rw [hfold, heq]⟩
    intro e he hve
    rcases List.mem_append.mp he with hep | hec
    · exact absurd hve (by simp [hinv e hep])
    · rcases List.mem_cons.mp hec with rfl | het
      · exact hltd
      · exact hp1 e het hve

lemma mem_prod_cands (ys xs : List Int) (y x : Int) :
    (y, x) ∈ (ys.flatMap fun a => xs.map fun b => (a, b)) ↔ y ∈ ys ∧ x ∈ xs := by
  simp only [List.mem_flatMap, List.mem_map]
  constructor
  · rintro ⟨a, ha, b, hb, hab⟩
    obtain ⟨rfl, rfl⟩ : a = y ∧ b = x := by
      constructor <;> [exact congrArg Prod.fst hab; exact congrArg Prod.snd hab]
    exact ⟨ha, hb⟩
  · rintro ⟨hy1, hx1⟩
    exact ⟨y, hy1, x, hx1, rfl⟩

/-- C3: with no pinned pixel and validated parameters, a candidate centre is
accepted exactly when every interferogram window has strictly more than
`min_fraction * chipsize^2` non-NaN cells; when at least one candidate is
accepted, the search returns the first accepted candidate (scan order: rows
outer, columns inner) whose mean window standard deviation is minimal —
earlier accepted candidates score strictly worse, later ones no better, so
ties go to the first candidate found. -/
theorem ref_pixel_best_window (sdFn : List ℚ → ℚ) (params : RefParams)
    (head : IfgR) (rest : List IfgR) (cs : Int) (mf : ℚ) (nx ny : Int)
    (ys xs : List Int)
    (hx : params.refx = 0) (hy : params.refy = 0)
    (hcs : params.refChipSize = some cs)
    (h1 : ¬ (cs < 3 ∨ cs > head.WIDTH ∨ cs % 2 = 0))
    (hmf : params.refMinFrac = some mf) (h2 : ¬ (mf < 0 ∨ mf > 1))
    (hnx : params.refnx = some nx)
    (h3 : ¬ (nx < 1 ∨ nx > head.WIDTH - (cs - 1)))
    (hny : params.refny = some ny)
    (h4 : ¬ (ny < 1 ∨ ny > head.FILE_LENGTH - (cs - 1)))
    (hys : stepCenters head.FILE_LENGTH ny (cs.fdiv 2) = some ys)
    (hxs : stepCenters head.WIDTH nx (cs.fdiv 2) = some xs)
    (hex : ∃ y ∈ ys, ∃ x ∈ xs,
      candValid (head :: rest) head.FILE_LENGTH head.WIDTH (cs.fdiv 2)
        (mf * (cs : ℚ) * (cs : ℚ)) (y, x) = true) :
    (∀ c : Int × Int,
      candValid (head :: rest) head.FILE_LENGTH head.WIDTH (cs.fdiv 2)
          (mf * (cs : ℚ) * (cs : ℚ)) c = true ↔
        ∀ i ∈ head :: rest,
          mf * (cs : ℚ) * (cs : ℚ) <
            (((windowValues i.phase_data head.FILE_LENGTH head.WIDTH c.1 c.2
              (cs.fdiv 2)).filter Option.isSome).length : ℚ)) ∧
    ∃ l₁ c l₂,
      (ys.flatMap fun y => xs.map fun x => (y, x)) = l₁ ++ c :: l₂ ∧
      candValid (head :: rest) head.FILE_LENGTH head.WIDTH (cs.fdiv 2)
        (mf * (cs : ℚ) * (cs : ℚ)) c = true ∧
      (∀ e ∈ l₁,
        candValid (head :: rest) head.FILE_LENGTH head.WIDTH (cs.fdiv 2)
          (mf * (cs : ℚ) * (cs : ℚ)) e = true →
        candScore sdFn (head :: rest) head.FILE_LENGTH head.WIDTH (cs.fdiv 2) c <
          candScore sdFn (head :: rest) head.FILE_LENGTH head.WIDTH (cs.fdiv 2) e) ∧
      (∀ e ∈ l₂,
        candValid (head :: rest) head.FILE_LENGTH head.WIDTH (cs.fdiv 2)
          (mf * (cs : ℚ) * (cs : ℚ)) e = true →
        candScore sdFn (head :: rest) head.FILE_LENGTH head.WIDTH (cs.fdiv 2) c ≤
          candScore sdFn (head :: rest) head.FILE_LENGTH head.WIDTH (cs.fdiv 2) e) ∧
      ref_pixel sdFn params (head :: rest) = .ok (c.1, c.2) := by
  have hfd : cs.fdiv 2 = cs / 2 := Int.fdiv_eq_ediv _ (by norm_num)
  have hrad1 : 1 ≤ cs.fdiv 2 := by omega
  have hcseq : cs = 2 * cs.fdiv 2 + 1 := by omega
  have hysPos := stepCenters_pos head.FILE_LENGTH ny (cs.fdiv 2) ys hrad1
    (by omega) (by omega) hys
  obtain ⟨y0, ytl, rfl⟩ : ∃ a t, ys = a :: t := by
    cases ys with
    | nil => exact absurd rfl hysPos.1
    | cons a t => exact ⟨a, t, rfl⟩
  have hscan := ref_pixel_scan sdFn params head rest cs mf nx ny y0 ytl xs
    hx hy hcs h1 hmf h2 hnx h3 hny h4 hys hxs
  constructor
  · intro c
    simp [candValid, List.all_eq_true]
  · set V := candValid (head :: rest) head.FILE_LENGTH head.WIDTH (cs.fdiv 2)
      (mf * (cs : ℚ) * (cs : ℚ)) with hV
    set S := candScore sdFn (head :: rest) head.FILE_LENGTH head.WIDTH (cs.fdiv 2) with hS
    set cands := (y0 :: ytl).flatMap fun y => xs.map fun x => (y, x) with hcands
    have hexc : ∃ c ∈ cands, V c = true := by
      obtain ⟨y, hy1, x, hx1, hv⟩ := hex
      exact ⟨(y, x), (mem_prod_cands (y0 :: ytl) xs y x).mpr ⟨hy1, hx1⟩, hv⟩
    obtain ⟨l₁, c, l₂, hdec, hvc, hpre, hpost, hfold⟩ :=
      scanFold_first_argmin V S cands 0 0 hexc
    have hcmem : c ∈ cands := by
      rw [hdec]
      exact List.mem_append_right _ (List.mem_cons_self c l₂)
    have hcys := (mem_prod_cands (y0 :: ytl) xs c.1 c.2).mp
      (by rw [Prod.mk.eta]; exact hcmem)
    have hc1 : 1 ≤ c.1 := hysPos.2 c.1 hcys.1
    refine ⟨l₁, c, l₂, hdec, hvc, hpre, hpost, ?_⟩
    rw [hscan]
    simp only [hx, hy]
    rw [hfold]
    rw [if_neg (fun hcon => by
      have := congrArg Prod.fst hcon
      simp at this
      omega)]

/-- C3 witness: a 3x3 grid with a single candidate window centre (1,1), all
cells valid; the search accepts it and returns it as the first minimiser. -/
theorem ref_pixel_best_window_witness :
    (∀ c : Int × Int,
      candValid [⟨3, 3, fun _ _ => some 0⟩] 3 3 ((3 : Int).fdiv 2)
          ((1/2 : ℚ) * ((3 : Int) : ℚ) * ((3 : Int) : ℚ)) c = true ↔
        ∀ i ∈ [(⟨3, 3, fun _ _ => some 0⟩ : IfgR)],
          (1/2 : ℚ) * ((3 : Int) : ℚ) * ((3 : Int) : ℚ) <
            (((windowValues i.phase_data 3 3 c.1 c.2
              ((3 : Int).fdiv 2)).filter Option.isSome).length : ℚ)) ∧
    ∃ l₁ c l₂,
      (([(1 : Int)]).flatMap fun y => ([(1 : Int)]).map fun x => (y, x)) = l₁ ++ c :: l₂ ∧
      candValid [⟨3, 3, fun _ _ => some 0⟩] 3 3 ((3 : Int).fdiv 2)
        ((1/2 : ℚ) * ((3 : Int) : ℚ) * ((3 : Int) : ℚ)) c = true ∧
      (∀ e ∈ l₁,
        candValid [⟨3, 3, fun _ _ => some 0⟩] 3 3 ((3 : Int).fdiv 2)
          ((1/2 : ℚ) * ((3 : Int) : ℚ) * ((3 : Int) : ℚ)) e = true →
        candScore (fun l => l.sum) [⟨3, 3, fun _ _ => some 0⟩] 3 3 ((3 : Int).fdiv 2) c <
          candScore (fun l => l.sum) [⟨3, 3, fun _ _ => some 0⟩] 3 3 ((3 : Int).fdiv 2) e) ∧
      (∀ e ∈ l₂,
        candValid [⟨3, 3, fun _ _ => some 0⟩] 3 3 ((3 : Int).fdiv 2)
          ((1/2 : ℚ) * ((3 : Int) : ℚ) * ((3 : Int) : ℚ)) e = true →
        candScore (fun l => l.sum) [⟨3, 3, fun _ _ => some 0⟩] 3 3 ((3 : Int).fdiv 2) c ≤
          candScore (fun l => l.sum) [⟨3, 3, fun _ _ => some 0⟩] 3 3 ((3 : Int).fdiv 2) e) ∧
      ref_pixel (fun l => l.sum)
        { refx := 0, refy := 0, refChipSize := some 3, refMinFrac := some (1/2),
          refnx := some 1, refny := some 1 }
        [⟨3, 3, fun _ _ => some 0⟩] = .ok (c.1, c.2) :=
  ref_pixel_best_window (fun l => l.sum)
    { refx := 0, refy := 0, refChipSize := some 3, refMinFrac := some (1/2),
      refnx := some 1, refny := some 1 }
    ⟨3, 3, fun _ _ => some 0⟩ [] 3 (1/2) 1 1 [1] [1]
    rfl rfl rfl (by decide) rfl (by norm_num) rfl (by decide) rfl (by decide)
    (by decide) (by decide)
    ⟨1, by simp, 1, by simp, by
      have hw : ((windowValues (fun _ _ => some (0 : ℚ)) 3 3 1 1
          ((3 : Int).fdiv 2)).filter Option.isSome).length = 9 := by decide
      simp only [candValid, List.all_cons, List.all_nil, Bool.and_true]
      rw [hw]
      simp only [decide_eq_true_eq]
      norm_num⟩

/-- C5 witness: on the same 3x3 all-valid grid the exhaustion condition is
equivalent to all candidates being invalid, and the one valid candidate
forces a returned coordinate. -/
theorem ref_pixel_search_exhaustion_witness :
    ((ref_pixel (fun l => l.sum)
        { refx := 0, refy := 0, refChipSize := some 3, refMinFrac := some (1/2),
          refnx := some 1, refny := some 1 }
        [⟨3, 3, fun _ _ => some 0⟩] =
          .error (.refPixelError "Could not find a reference pixel")) ↔
      ∀ y ∈ [(1 : Int)], ∀ x ∈ [(1 : Int)],
        candValid [⟨3, 3, fun _ _ => some 0⟩] 3 3 ((3 : Int).fdiv 2)
          ((1/2 : ℚ) * ((3 : Int) : ℚ) * ((3 : Int) : ℚ)) (y, x) = false) ∧
    ((∃ y ∈ [(1 : Int)], ∃ x ∈ [(1 : Int)],
        candValid [⟨3, 3, fun _ _ => some 0⟩] 3 3 ((3 : Int).fdiv 2)
          ((1/2 : ℚ) * ((3 : Int) : ℚ) * ((3 : Int) : ℚ)) (y, x) = true) →
      ∃ yx : Int × Int, ref_pixel (fun l => l.sum)
        { refx := 0, refy := 0, refChipSize := some 3, refMinFrac := some (1/2),
          refnx := some 1, refny := some 1 }
        [⟨3, 3, fun _ _ => some 0⟩] = .ok yx) :=
  ref_pixel_search_exhaustion (fun l => l.sum)
    { refx := 0, refy := 0, refChipSize := some 3, refMinFrac := some (1/2),
      refnx := some 1, refny := some 1 }
    ⟨3, 3, fun _ _ => some 0⟩ [] 3 (1/2) 1 1 [1] [1]
    rfl rfl rfl (by decide) rfl (by norm_num) rfl (by decide) rfl (by decide)
    (by decide) (by decide)

lemma filter_isSome_isNone_length {D : Type} :
    ∀ m : List (D × Option D),
      (m.filter fun kv => kv.2.isSome).length +
        (m.filter fun kv => kv.2.isNone).length = m.length := by
  intro m
  induction m with
  | nil => rfl
  | cons kv t ih =>
    cases h : kv.2 with
    | none => simp [List.filter_cons, h]; omega
    | some d => simp [List.filter_cons, h]; omega

/-- C8: on an MST dictionary with a unique no-parent (root) entry,
`_remove_root_node` shrinks the entry count by exactly one, keeps every entry
whose parent is a real node, and what remains is exactly the non-root part of
the input. -/
theorem remove_root_node_spec {D : Type} (m : List (D × Option D))
    (hroot : (m.filter fun kv => kv.2.isNone).length = 1) :
    (remove_root_node m).length = m.length - 1 ∧
    (∀ kv ∈ m, kv.2 ≠ none → kv ∈ remove_root_node m) ∧
    (∀ kv ∈ remove_root_node m, kv ∈ m ∧ kv.2 ≠ none) := by
  have hlen := filter_isSome_isNone_length m
  refine ⟨by simp only [remove_root_node]; omega, ?_, ?_⟩
  · intro kv hkv hne
    simp only [remove_root_node, List.mem_filter]
    exact ⟨hkv, Option.isSome_iff_ne_none.mpr hne⟩
  · intro kv hkv
    simp only [remove_root_node, List.mem_filter] at hkv
    exact ⟨hkv.1, Option.isSome_iff_ne_none.mp hkv.2⟩

/-- C8 witness: a two-entry MST dictionary with root `0`. -/
theorem remove_root_node_spec_witness :
    (remove_root_node [((0 : Nat), (none : Option Nat)), (1, some 0)]).length =
      ([((0 : Nat), (none : Option Nat)), (1, some 0)]).length - 1 ∧
    (∀ kv ∈ [((0 : Nat), (none : Option Nat)), (1, some 0)], kv.2 ≠ none →
      kv ∈ remove_root_node [((0 : Nat), (none : Option Nat)), (1, some 0)]) ∧
    (∀ kv ∈ remove_root_node [((0 : Nat), (none : Option Nat)), (1, some 0)],
      kv ∈ [((0 : Nat), (none : Option Nat)), (1, some 0)] ∧ kv.2 ≠ none) :=
  remove_root_node_spec [((0 : Nat), (none : Option Nat)), (1, some 0)] (by decide)

lemma pixelStep_all_some {E D : Type} [DecidableEq E]
    (mstFn : Finset E → List (D × Option D)) (defM : List (D × Option D))
    (ifgs : List (IfgM E)) (g : Finset E) (p : Nat × Nat)
    (h : ∀ i ∈ ifgs, (i.phase p).isSome) :
    pixelStep mstFn defM ifgs g p = (g, .tree defM, 0) := by
  have hfil : (ifgs.map fun i => i.phase p).filter (fun v => v.isNone) = [] := by
    rw [List.filter_eq_nil_iff]
    intro v hv
    obtain ⟨i, hi, rfl⟩ := List.mem_map.mp hv
    simp [Option.isNone_iff_eq_none]
    exact Option.isSome_iff_ne_none.mp (h i hi)
  simp [pixelStep, hfil]

lemma pixelStep_all_none {E D : Type} [DecidableEq E]
    (mstFn : Finset E → List (D × Option D)) (defM : List (D × Option D))
    (ifgs : List (IfgM E)) (g : Finset E) (p : Nat × Nat)
    (hne : ifgs ≠ []) (h : ∀ i ∈ ifgs, i.phase p = none) :
    pixelStep mstFn defM ifgs g p = (g, .nanValue, 0) := by
  have hfil : (ifgs.map fun i => i.phase p).filter (fun v => v.isNone) =
      ifgs.map fun i => i.phase p := by
    rw [List.filter_eq_self]
    intro v hv
    obtain ⟨i, hi, rfl⟩ := List.mem_map.mp hv
    simp [h i hi]
  have hlen : ((ifgs.map fun i => i.phase p).filter (fun v => v.isNone)).length =
      ifgs.length := by rw [hfil, List.length_map]
  have hpos : ifgs.length ≠ 0 := fun hc => hne (List.length_eq_zero.mp hc)
  simp [pixelStep, hlen, hpos]

lemma mst_fold_mem {E D : Type} [DecidableEq E]
    (mstFn : Finset E → List (D × Option D)) (defM : List (D × Option D))
    (ifgs : List (IfgM E)) :
    ∀ (pixels : List (Nat × Nat))
      (acc : List ((Nat × Nat) × PixelMst D) × Finset E × Nat)
      (p : Nat × Nat) (r : PixelMst D),
    (p, r) ∈ (pixels.foldl
      (fun acc p =>
        let rr := pixelStep mstFn defM ifgs acc.2.1 p
        (acc.1 ++ [(p, rr.2.1)], rr.1, acc.2.2 + rr.2.2)) acc).1 →
    (p, r) ∈ acc.1 ∨ ∃ g : Finset E, r = (pixelStep mstFn defM ifgs g p).2.1 := by
  intro pixels
  induction pixels with
  | nil => exact fun acc p r h => Or.inl h
  | cons q t ih =>
    intro acc p r h
    rw [List.foldl_cons] at h
    rcases ih _ p r h with hmem | hex
    · rcases List.mem_append.mp hmem with hl | hr
      · exact Or.inl hl
      · rcases List.mem_singleton.mp hr with heq
        obtain ⟨rfl, rfl⟩ : q = p ∧ (pixelStep mstFn defM ifgs acc.2.1 q).2.1 = r := by
          constructor
          · exact (congrArg Prod.fst heq).symm
          · exact (congrArg Prod.snd heq).symm
        exact Or.inr ⟨acc.2.1, rfl⟩
    · exact Or.inr hex

/-- C7: in `mst_matrix`, a pixel with no missing interferogram value is
assigned the cached default tree with no graph mutation and no MST
computation; a pixel where every interferogram is missing is assigned the NaN
sentinel, never a tree, again with no mutation and no MST computation.  The
first two conjuncts state the per-pixel behaviour for an arbitrary graph
state and cached tree; the third ties it to every assignment actually made by
`mst_matrix`. -/
theorem mst_matrix_fast_paths {E D : Type} [DecidableEq E]
    (mstFn : Finset E → List (D × Option D)) (ifgs : List (IfgM E))
    (rows cols : Nat) :
    (∀ (defM : List (D × Option D)) (g : Finset E) (p : Nat × Nat),
      (∀ i ∈ ifgs, (i.phase p).isSome) →
      pixelStep mstFn defM ifgs g p = (g, .tree defM, 0)) ∧
    (∀ (defM : List (D × Option D)) (g : Finset E) (p : Nat × Nat),
      ifgs ≠ [] → (∀ i ∈ ifgs, i.phase p = none) →
      pixelStep mstFn defM ifgs g p = (g, .nanValue, 0)) ∧
    (∀ (p : Nat × Nat) (r : PixelMst D),
      (p, r) ∈ (mst_matrix mstFn ifgs rows cols).1 →
      ((∀ i ∈ ifgs, (i.phase p).isSome) →
        r = .tree (remove_root_node (mstFn (ifgs.map IfgM.DATE12).toFinset))) ∧
      (ifgs ≠ [] → (∀ i ∈ ifgs, i.phase p = none) → r = .nanValue)) := by
  refine ⟨fun defM g p h => pixelStep_all_some mstFn defM ifgs g p h,
    fun defM g p hne h => pixelStep_all_none mstFn defM ifgs g p hne h, ?_⟩
  intro p r hmem
  have hmem2 := mst_fold_mem mstFn
    (remove_root_node (mstFn (ifgs.map IfgM.DATE12).toFinset)) ifgs _ _ p r
    (by simpa [mst_matrix] using hmem)
  rcases hmem2 with habs | ⟨g, rfl⟩
  · simp at habs
  · constructor
    · intro hall
      rw [pixelStep_all_some mstFn _ ifgs g p hall]
    · intro hne hall
      rw [pixelStep_all_none mstFn _ ifgs g p hne hall]

/-- C7 witness: on `sampleIfgs` over a 1x2 grid, pixel (0,0) (all present)
takes the default-tree fast path and pixel (0,1) (all missing) the NaN fast
path, and the `mst_matrix` assignment at (0,0) is the cached default tree. -/
theorem mst_matrix_fast_paths_witness :
    pixelStep sampleMstFn [] sampleIfgs ∅ (0, 0) = (∅, PixelMst.tree [], 0) ∧
    pixelStep sampleMstFn [] sampleIfgs ∅ (0, 1) = (∅, PixelMst.nanValue, 0) ∧
    PixelMst.tree ([] : List (Nat × Option Nat)) =
      PixelMst.tree (remove_root_node (sampleMstFn
        (sampleIfgs.map IfgM.DATE12).toFinset)) :=
  ⟨(mst_matrix_fast_paths sampleMstFn sampleIfgs 1 2).1 [] ∅ (0, 0) (by decide),
   (mst_matrix_fast_paths sampleMstFn sampleIfgs 1 2).2.1 [] ∅ (0, 1)
     (by simp [sampleIfgs]) (by decide),
   ((mst_matrix_fast_paths sampleMstFn sampleIfgs 1 2).2.2 (0, 0)
     (PixelMst.tree []) (by decide)).1 (by decide)⟩

lemma mem_toggleEdge {E : Type} [DecidableEq E] (g : Finset E) (v : Option ℚ)
    (d e : E) :
    e ∈ toggleEdge g v d ↔ (e = d ∧ v.isSome) ∨ (e ≠ d ∧ e ∈ g) := by
  cases v with
  | none =>
    simp only [toggleEdge]
    by_cases hd : d ∈ g
    · rw [if_pos hd]
      constructor
      · intro he
        exact Or.inr ⟨(Finset.mem_erase.mp he).1, (Finset.mem_erase.mp he).2⟩
      · rintro (⟨-, hf⟩ | ⟨hne, he⟩)
        · exact absurd hf (by simp)
        · exact Finset.mem_erase.mpr ⟨hne, he⟩
    · rw [if_neg hd]
      constructor
      · intro he
        by_cases hed : e = d
        · exact absurd (hed ▸ he) hd
        · exact Or.inr ⟨hed, he⟩
      · rintro (⟨-, hf⟩ | ⟨-, he⟩)
        · exact absurd hf (by simp)
        · exact he
  | some q =>
    simp only [toggleEdge]
    by_cases hd : d ∉ g
    · rw [if_pos hd]
      constructor
      · intro he
        rcases Finset.mem_insert.mp he with rfl | he
        · exact Or.inl ⟨rfl, rfl⟩
        · by_cases hed : e = d
          · exact Or.inl ⟨hed, rfl⟩
          · exact Or.inr ⟨hed, he⟩
      · rintro (⟨rfl, -⟩ | ⟨-, he⟩)
        · exact Finset.mem_insert_self e g
        · exact Finset.mem_insert_of_mem he
    · rw [if_neg hd]
      push_neg at hd
      constructor
      · intro he
        by_cases hed : e = d
        · exact Or.inl ⟨hed, rfl⟩
        · exact Or.inr ⟨hed, he⟩
      · rintro (⟨rfl, -⟩ | ⟨-, he⟩)
        · exact hd
        · exact he

lemma adjustGraph_mem {E : Type} [DecidableEq E] :
    ∀ (pairs : List (Option ℚ × E)) (g : Finset E) (e : E),
    (pairs.map Prod.snd).Nodup →
    (e ∈ adjustGraph g pairs ↔
      (∃ ve ∈ pairs, ve.2 = e ∧ ve.1.isSome) ∨
      (e ∉ pairs.map Prod.snd ∧ e ∈ g)) := by
  intro pairs
  induction pairs with
  | nil => intro g e _; simp [adjustGraph]
  | cons vd t ih =>
    intro g e hnd
    rw [List.map_cons, List.nodup_cons] at hnd
    have hstep : adjustGraph g (vd :: t) = adjustGraph (toggleEdge g vd.1 vd.2) t := rfl
    rw [hstep, ih (toggleEdge g vd.1 vd.2) e hnd.2]
    by_cases hed : e = vd.2
    · have hnt : ¬ ∃ ve ∈ t, ve.2 = e ∧ ve.1.isSome = true := by
        rintro ⟨ve, hve, hv2, -⟩
        have hm : e ∈ t.map Prod.snd := hv2 ▸ List.mem_map_of_mem Prod.snd hve
        rw [hed] at hm
        exact hnd.1 hm
      have hnt2 : e ∉ t.map Prod.snd := by rw [hed]; exact hnd.1
      constructor
      · rintro (hex | ⟨-, hmem⟩)
        · exact absurd hex hnt
        · rcases (mem_toggleEdge g vd.1 vd.2 e).mp hmem with ⟨-, hs⟩ | ⟨hne, -⟩
          · exact Or.inl ⟨vd, List.mem_cons_self vd t, hed.symm, hs⟩
          · exact absurd hed hne
      · rintro (⟨ve, hve, hv2, hs⟩ | ⟨habs, -⟩)
        · rcases List.mem_cons.mp hve with rfl | hvet
          · exact Or.inr ⟨hnt2, (mem_toggleEdge g ve.1 ve.2 e).mpr
              (Or.inl ⟨hed, hs⟩)⟩
          · have hm : e ∈ t.map Prod.snd := hv2 ▸ List.mem_map_of_mem Prod.snd hvet
            exact absurd hm hnt2
        · exact absurd hed (fun hc => habs
            (by rw [List.map_cons, hc]; exact List.mem_cons_self _ _))
    · have htog : e ∈ toggleEdge g vd.1 vd.2 ↔ e ∈ g := by
        rw [mem_toggleEdge]
        constructor
        · rintro (⟨h1, -⟩ | ⟨-, h2⟩)
          · exact absurd h1 hed
          · exact h2
        · intro h
          exact Or.inr ⟨hed, h⟩
      constructor
      · rintro (⟨ve, hve, hv2, hs⟩ | ⟨hnm, hmem⟩)
        · exact Or.inl ⟨ve, List.mem_cons_of_mem vd hve, hv2, hs⟩
        · exact Or.inr ⟨by simp [hed, hnm], htog.mp hmem⟩
      · rintro (⟨ve, hve, hv2, hs⟩ | ⟨hnm, hmem⟩)
        · rcases List.mem_cons.mp hve with rfl | hvet
          · exact absurd hv2.symm hed
          · exact Or.inl ⟨ve, hvet, hv2, hs⟩
        · refine Or.inr ⟨?_, htog.mpr hmem⟩
          intro hc
          exact (by simpa using hnm : ¬ (e = vd.2 ∨ e ∈ t.map Prod.snd)) (Or.inr hc)

lemma adjustGraph_eq {E : Type} [DecidableEq E] (ifgs : List (IfgM E))
    (p : Nat × Nat) (hnd : (ifgs.map IfgM.DATE12).Nodup) (g : Finset E)
    (hg : g ⊆ (ifgs.map IfgM.DATE12).toFinset) :
    adjustGraph g ((ifgs.map fun i => i.phase p).zip (ifgs.map IfgM.DATE12)) =
      ((ifgs.filter fun i => (i.phase p).isSome).map IfgM.DATE12).toFinset := by
  have hzip : (ifgs.map fun i => i.phase p).zip (ifgs.map IfgM.DATE12) =
      ifgs.map fun i => (i.phase p, i.DATE12) := List.zip_map' _ _ ifgs
  have hsnd : (ifgs.map fun i => ((i.phase p : Option ℚ), i.DATE12)).map Prod.snd =
      ifgs.map IfgM.DATE12 := by
    rw [List.map_map]
    rfl
  ext e
  rw [hzip, adjustGraph_mem _ g e (by rw [hsnd]; exact hnd)]
  constructor
  · rintro (⟨ve, hve, hv2, hs⟩ | ⟨hnm, hmem⟩)
    · obtain ⟨i, hi, rfl⟩ := List.mem_map.mp hve
      rw [List.mem_toFinset, List.mem_map]
      exact ⟨i, List.mem_filter.mpr ⟨hi, hs⟩, hv2⟩
    · exfalso
      rw [hsnd] at hnm
      exact hnm (List.mem_toFinset.mp (hg hmem))
  · intro he
    rw [List.mem_toFinset, List.mem_map] at he
    obtain ⟨i, hi, rfl⟩ := he
    rw [List.mem_filter] at hi
    exact Or.inl ⟨(i.phase p, i.DATE12), List.mem_map_of_mem _ hi.1, rfl, hi.2⟩

lemma pixelStep_general {E D : Type} [DecidableEq E]
    (mstFn : Finset E → List (D × Option D)) (defaultMst : List (D × Option D))
    (ifgs : List (IfgM E)) (p : Nat × Nat) (g : Finset E)
    (hnd : (ifgs.map IfgM.DATE12).Nodup)
    (hg : g ⊆ (ifgs.map IfgM.DATE12).toFinset)
    (hsome : ∃ i ∈ ifgs, (i.phase p).isSome)
    (hnone : ∃ i ∈ ifgs, i.phase p = none) :
    pixelStep mstFn defaultMst ifgs g p =
      (((ifgs.filter fun i => (i.phase p).isSome).map IfgM.DATE12).toFinset,
        .tree (remove_root_node (mstFn
          (((ifgs.filter fun i => (i.phase p).isSome).map IfgM.DATE12).toFinset))),
        1) := by
  have h1 : ((ifgs.map fun i => i.phase p).filter fun v => v.isNone).length ≠ 0 := by
    obtain ⟨i, hi, hni⟩ := hnone
    intro hc
    rw [List.length_eq_zero, List.filter_eq_nil_iff] at hc
    exact hc (i.phase p) (List.mem_map_of_mem _ hi) (by simp [hni])
  have h2 : ((ifgs.map fun i => i.phase p).filter fun v => v.isNone).length ≠
      ifgs.length := by
    obtain ⟨i, hi, hsi⟩ := hsome
    intro hc
    rw [show ifgs.length = (ifgs.map fun i => i.phase p).length from
      (List.length_map _ _).symm, List.filter_length_eq_length] at hc
    have := hc (i.phase p) (List.mem_map_of_mem _ hi)
    simp [Option.isNone_iff_eq_none] at this
    rw [this] at hsi
    simp at hsi
  simp only [pixelStep]
  rw [if_neg h1, if_neg h2, adjustGraph_eq ifgs p hnd g hg]

/-- C1: in the general branch of `mst_matrix` (some but not all values
missing at the pixel), for any starting edge set that is a subset of the full
interferogram edge set — as every state reachable from setup is, by the third
conjunct — the per-edge toggle loop leaves the graph holding exactly the
edges of the interferograms with a non-NaN value at this pixel, independent
of prior pixels, and the MST is recomputed (once) on exactly that edge set. -/
theorem mst_pre_mst_graph {E D : Type} [DecidableEq E]
    (mstFn : Finset E → List (D × Option D)) (defaultMst : List (D × Option D))
    (ifgs : List (IfgM E)) (p : Nat × Nat) (g : Finset E)
    (hnd : (ifgs.map IfgM.DATE12).Nodup)
    (hg : g ⊆ (ifgs.map IfgM.DATE12).toFinset)
    (hsome : ∃ i ∈ ifgs, (i.phase p).isSome)
    (hnone : ∃ i ∈ ifgs, i.phase p = none) :
    adjustGraph g ((ifgs.map fun i => i.phase p).zip (ifgs.map IfgM.DATE12)) =
      ((ifgs.filter fun i => (i.phase p).isSome).map IfgM.DATE12).toFinset ∧
    pixelStep mstFn defaultMst ifgs g p =
      (((ifgs.filter fun i => (i.phase p).isSome).map IfgM.DATE12).toFinset,
        .tree (remove_root_node (mstFn
          (((ifgs.filter fun i => (i.phase p).isSome).map IfgM.DATE12).toFinset))),
        1) ∧
    (∀ (g2 : Finset E) (q : Nat × Nat), g2 ⊆ (ifgs.map IfgM.DATE12).toFinset →
      (pixelStep mstFn defaultMst ifgs g2 q).1 ⊆ (ifgs.map IfgM.DATE12).toFinset) := by
  refine ⟨adjustGraph_eq ifgs p hnd g hg,
    pixelStep_general mstFn defaultMst ifgs p g hnd hg hsome hnone, ?_⟩
  intro g2 q hg2
  by_cases hall : ∀ i ∈ ifgs, (i.phase q).isSome
  · rw [pixelStep_all_some mstFn defaultMst ifgs g2 q hall]
    exact hg2
  · by_cases hnone2 : ∀ i ∈ ifgs, i.phase q = none
    · by_cases hne : ifgs = []
      · subst hne
        rw [pixelStep_all_some mstFn defaultMst [] g2 q (by simp)]
        exact hg2
      · rw [pixelStep_all_none mstFn defaultMst ifgs g2 q hne hnone2]
        exact hg2
    · push_neg at hall hnone2
      obtain ⟨i, hi, hin⟩ := hall
      obtain ⟨j, hj, hjs⟩ := hnone2
      have hsome_q : ∃ i ∈ ifgs, (i.phase q).isSome :=
        ⟨j, hj, Option.isSome_iff_ne_none.mpr hjs⟩
      have hnone_q : ∃ i ∈ ifgs, i.phase q = none :=
        ⟨i, hi, by simpa [Option.isSome_iff_ne_none] using hin⟩
      rw [pixelStep_general mstFn defaultMst ifgs q g2 hnd hg2 hsome_q hnone_q]
      intro e he
      rw [List.mem_toFinset, List.mem_map] at he
      obtain ⟨k, hk, rfl⟩ := he
      rw [List.mem_filter] at hk
      rw [List.mem_toFinset]
      exact List.mem_map_of_mem _ hk.1

/-- C1 witness: starting from any subset of the edge set (here the empty set
and the full set give the same answer) at a pixel where interferogram 0 is
present and interferogram 1 is missing, the toggled graph is exactly edge 0
before the single MST recomputation. -/
theorem mst_pre_mst_graph_witness :
    (adjustGraph (∅ : Finset Nat)
        ((sampleIfgsMixed.map fun i => i.phase (0, 0)).zip
          (sampleIfgsMixed.map IfgM.DATE12)) =
      ((sampleIfgsMixed.filter fun i => (i.phase (0, 0)).isSome).map
        IfgM.DATE12).toFinset) ∧
    pixelStep sampleMstFn [] sampleIfgsMixed ∅ (0, 0) =
      (((sampleIfgsMixed.filter fun i => (i.phase (0, 0)).isSome).map
          IfgM.DATE12).toFinset,
        .tree (remove_root_node (sampleMstFn
          (((sampleIfgsMixed.filter fun i => (i.phase (0, 0)).isSome).map
            IfgM.DATE12).toFinset))),
        1) ∧
    (∀ (g2 : Finset Nat) (q : Nat × Nat),
      g2 ⊆ (sampleIfgsMixed.map IfgM.DATE12).toFinset →
      (pixelStep sampleMstFn [] sampleIfgsMixed g2 q).1 ⊆
        (sampleIfgsMixed.map IfgM.DATE12).toFinset) :=
  mst_pre_mst_graph sampleMstFn [] sampleIfgsMixed (0, 0) ∅ (by decide)
    (by decide) (by decide) (by decide)

lemma indexOf_count (dates : List Int) (hnd : dates.Nodup) (combined : List Int)
    (hsub : ∀ d ∈ combined, d ∈ dates) (i : Nat) (hi : i < dates.length) :
    (combined.map fun d => dates.indexOf d).count i =
      combined.count (dates.get ⟨i, hi⟩) := by
  rw [List.count_eq_countP, List.countP_map, List.count_eq_countP]
  refine List.countP_congr ?_
  intro d hd
  simp only [Function.comp_apply, beq_iff_eq]
  constructor
  · intro h
    subst h
    exact (List.indexOf_get (List.indexOf_lt_length.mpr (hsub d hd))).symm
  · intro h
    have hdm : d ∈ dates := hsub d hd
    have hj : dates.indexOf d < dates.length := List.indexOf_lt_length.mpr hdm
    have hget : dates.get ⟨dates.indexOf d, hj⟩ = dates.get ⟨i, hi⟩ := by
      rw [List.indexOf_get hj, h]
    have := (hnd.get_inj_iff).mp hget
    exact congrArg Fin.val this

lemma list_map_range_sum (f : Nat → Nat) (k : Nat) :
    ((List.range k).map f).sum = ∑ i in Finset.range k, f i := by
  induction k with
  | zero => simp
  | succ k ih => rw [List.range_succ, List.map_append, List.sum_append,
      Finset.sum_range_succ, ih]; simp

lemma sum_counts (l : List Nat) (k : Nat) (h : ∀ v ∈ l, v < k) :
    ∑ i in Finset.range k, l.count i = l.length := by
  induction l with
  | nil => simp
  | cons a t ih =>
    have ha : a < k := h a (List.mem_cons_self a t)
    have ht : ∀ v ∈ t, v < k := fun v hv => h v (List.mem_cons_of_mem a hv)
    have hsplit : ∀ i, (a :: t).count i = t.count i + if a = i then 1 else 0 := by
      intro i
      rw [List.count_cons]
      simp
    calc ∑ i in Finset.range k, (a :: t).count i
        = ∑ i in Finset.range k, (t.count i + if a = i then 1 else 0) :=
          Finset.sum_congr rfl fun i _ => hsplit i
      _ = (∑ i in Finset.range k, t.count i) +
          ∑ i in Finset.range k, (if a = i then 1 else 0) := Finset.sum_add_distrib
      _ = t.length + 1 := by
          rw [ih ht, Finset.sum_ite_eq (Finset.range k) a fun _ => 1,
            if_pos (Finset.mem_range.mpr ha)]
      _ = (a :: t).length := by simp

/-- C9: for a non-empty stack, `get_epochs` gives each distinct date a repeat
count equal to its number of occurrences among all master and slave
references, and the repeat counts sum to exactly twice the number of
interferograms. -/
theorem get_epochs_spec (ifgs : List IfgE) (hne : ifgs ≠ []) :
    (get_epochs ifgs).repeats.sum = 2 * ifgs.length ∧
    (get_epochs ifgs).repeats.length = (get_epochs ifgs).dates.length ∧
    (∀ i : Nat, (get_epochs ifgs).repeats[i]? =
      ((get_epochs ifgs).dates[i]?).map fun d =>
        (ifgs.map IfgE.MASTER ++ ifgs.map IfgE.SLAVE).count d) := by
  set combined := ifgs.map IfgE.MASTER ++ ifgs.map IfgE.SLAVE with hcomb
  set dates := (combined.dedup).mergeSort (fun a b => decide (a ≤ b)) with hdts
  have hperm : List.Perm dates combined.dedup := List.mergeSort_perm _ _
  have hnd : dates.Nodup := hperm.nodup_iff.mpr (combined.nodup_dedup)
  have hsub : ∀ d ∈ combined, d ∈ dates := fun d hd =>
    hperm.mem_iff.mpr (List.mem_dedup.mpr hd)
  have hre : (get_epochs ifgs).repeats =
      (List.range dates.length).map fun i =>
        (combined.map fun d => dates.indexOf d).count i := rfl
  have hda : (get_epochs ifgs).dates = dates := rfl
  have hlt : ∀ v ∈ combined.map fun d => dates.indexOf d, v < dates.length := by
    intro v hv
    obtain ⟨d, hd, rfl⟩ := List.mem_map.mp hv
    exact List.indexOf_lt_length.mpr (hsub d hd)
  refine ⟨?_, ?_, ?_⟩
  · rw [hre, list_map_range_sum, sum_counts _ _ hlt, List.length_map, hcomb]
    simp [List.length_append, List.length_map, Nat.two_mul]
  · rw [hre, hda, List.length_map, List.length_range]
  · intro i
    rw [hre, hda]
    by_cases hi : i < dates.length
    · have h1 : ((List.range dates.length).map fun i =>
          (combined.map fun d => dates.indexOf d).count i)[i]? =
          some ((combined.map fun d => dates.indexOf d).count i) := by
        rw [List.getElem?_map, List.getElem?_range hi]
        rfl
      have h2 : dates[i]? = some (dates.get ⟨i, hi⟩) := by
        rw [List.getElem?_eq_getElem hi, List.get_eq_getElem]
      rw [h1, h2]
      exact congrArg some (indexOf_count dates hnd combined hsub i hi)
    · have h1 : ((List.range dates.length).map fun i =>
          (combined.map fun d => dates.indexOf d).count i)[i]? = none := by
        refine List.getElem?_eq_none ?_
        rw [List.length_map, List.length_range]
        omega
      have h2 : dates[i]? = none := List.getElem?_eq_none (by omega)
      rw [h1, h2]
      rfl

/-- C9 witness: two interferograms (0,10) and (10,20); dates 0, 10, 20 repeat
1, 2, 1 times and the counts sum to 4 = 2 x 2. -/
theorem get_epochs_spec_witness :
    (get_epochs [⟨0, 10⟩, ⟨10, 20⟩]).repeats.sum =
      2 * ([⟨0, 10⟩, ⟨10, 20⟩] : List IfgE).length ∧
    (get_epochs [⟨0, 10⟩, ⟨10, 20⟩]).repeats.length =
      (get_epochs [⟨0, 10⟩, ⟨10, 20⟩]).dates.length ∧
    (∀ i : Nat, (get_epochs [⟨0, 10⟩, ⟨10, 20⟩]).repeats[i]? =
      ((get_epochs [⟨0, 10⟩, ⟨10, 20⟩]).dates[i]?).map fun d =>
        (([⟨0, 10⟩, ⟨10, 20⟩] : List IfgE).map IfgE.MASTER ++
          ([⟨0, 10⟩, ⟨10, 20⟩] : List IfgE).map IfgE.SLAVE).count d) :=
  get_epochs_spec [⟨0, 10⟩, ⟨10, 20⟩] (by simp)

end PyRate
